import Mathlib

/-!
# Verification of the neural-graph-engine entity-resolution and aggregation core

A shallow embedding, in Lean 4, of the deterministic core of the
neural-graph-engine repository:

* `normalizeEntityName` (src/api/discover-batch.ts, lines 110-299): the
  Tier 1 alias-table / Tier 2 suffix-and-casing entity-name canonicalizer;
* `calculateWhoCaresFromRelationships` (src/api/discover-batch.ts, lines
  583-617): the exposure aggregator;
* `resolveEntitiesSemantically` and the per-name fallback of the semantic
  handler (src/api/discover-batch.ts, lines 1529-1826): the Tier 3
  batched resolution with its degradation behaviour;
* `extractCompaniesFromText` (src/api/parse-companies.ts, lines 91-116 and
  src/server/routes/parse-companies.ts, lines 59-85; the two copies are
  identical): the regex fallback of the free-text company normalizer.

JavaScript strings are modelled as Lean `String`/`List Char`; the inputs
exercised here are ASCII, for which `Char.toLower`/`Char.toUpper` agree with
the JavaScript `toLowerCase`/`toUpperCase`.  JavaScript `Map`/`Set` objects
(insertion-ordered, last-set-wins for values) are modelled as association
lists with explicit update functions.  The specific regular expressions used
by the source are compiled by hand into executable matchers whose
backtracking behaviour is worked out pattern by pattern.
-/

namespace NeuralGraph

/-! ## Data model (src/api/discover-batch.ts interface declarations) -/

structure Relationship where
  entity_name : String
  entity_type : String
  category : String
  details : String
deriving Repr, DecidableEq

structure CompanyWithRels where
  name : String
  ticker : String
  exchange : String
  stress_signal : Option String
  relationships : List Relationship
deriving Repr, DecidableEq

structure ExposureDetail where
  ticker : String
  relationship_type : String
deriving Repr, DecidableEq

structure WhoCaresEntity where
  entity_name : String
  entity_type : String
  category : String
  exposure_count : Nat
  exposed_companies : List String
  exposure_details : List ExposureDetail
deriving Repr, DecidableEq

structure ParsedCompany where
  name : String
  ticker : String
  exchange : String
  stress_signal : Option String
deriving Repr, DecidableEq

/-! ## String utilities mirroring the JavaScript primitives -/

/-- The JavaScript whitespace class `\s`, restricted to its ASCII members
(the inputs handled here contain no Unicode spaces). -/
def jsIsWs (c : Char) : Bool :=
  c == ' ' || c == '\t' || c == '\n' || c == '\r' || c == '\x0b' || c == '\x0c'

/-- `String.prototype.trim` on a character list. -/
def trimChars (l : List Char) : List Char :=
  ((l.dropWhile jsIsWs).reverse.dropWhile jsIsWs).reverse

/-- `String.prototype.trim`. -/
def jsTrim (s : String) : String := String.mk (trimChars s.toList)

/-- `String.prototype.toLowerCase` (ASCII). -/
def lowerStr (s : String) : String := String.mk (s.toList.map Char.toLower)

/-- `String.prototype.toUpperCase` (ASCII). -/
def upperStr (s : String) : String := String.mk (s.toList.map Char.toUpper)

/-- Does `hay` contain `needle` as a contiguous substring
(`String.prototype.includes`)? -/
def containsSub (hay needle : List Char) : Bool :=
  if needle.isPrefixOf hay then true
  else
    match hay with
    | [] => false
    | _ :: t => containsSub t needle

/-- `a.includes(b)` on strings. -/
def strIncludes (s sub : String) : Bool := containsSub s.toList sub.toList

/-! ## The Tier 1 alias table (src/api/discover-batch.ts lines 114-244)

The object literal `knownEntities`, kept in source order (all keys are
non-numeric strings, so JavaScript preserves insertion order). -/

def knownEntities : List (String × String) := [
  ("ernst & young", "Ernst & Young"),
  ("ey", "Ernst & Young"),
  ("ernst & young (ey)", "Ernst & Young"),
  ("pricewaterhousecoopers", "PwC"),
  ("pwc", "PwC"),
  ("pricewaterhousecoopers (pwc)", "PwC"),
  ("kpmg australia", "KPMG"),
  ("kpmg", "KPMG"),
  ("deloitte touche tohmatsu", "Deloitte"),
  ("deloitte", "Deloitte"),
  ("bdo australia", "BDO"),
  ("bdo", "BDO"),
  ("hsbc custody nominees (australia) limited", "HSBC Custody Nominees"),
  ("hsbc custody nominees", "HSBC Custody Nominees"),
  ("j p morgan nominees australia pty limited", "JP Morgan Nominees"),
  ("jp morgan nominees australia", "JP Morgan Nominees"),
  ("j.p. morgan", "JP Morgan"),
  ("citicorp nominees pty limited", "Citicorp Nominees"),
  ("national nominees limited", "National Nominees"),
  ("bnp paribas nominees pty ltd", "BNP Paribas Nominees"),
  ("blackrock, inc.", "BlackRock"),
  ("blackrock inc", "BlackRock"),
  ("blackrock group", "BlackRock"),
  ("blackrock", "BlackRock"),
  ("vanguard group", "Vanguard"),
  ("the vanguard group", "Vanguard"),
  ("vanguard funds", "Vanguard"),
  ("vanguard", "Vanguard"),
  ("state street corporation", "State Street"),
  ("state street corporation and subsidiaries", "State Street"),
  ("state street", "State Street"),
  ("fidelity investments", "Fidelity"),
  ("fidelity", "Fidelity"),
  ("fil limited", "Fidelity"),
  ("macquarie group limited", "Macquarie"),
  ("macquarie group", "Macquarie"),
  ("macquarie capital", "Macquarie"),
  ("macquarie bank", "Macquarie"),
  ("macquarie", "Macquarie"),
  ("goldman sachs", "Goldman Sachs"),
  ("goldman sachs australia", "Goldman Sachs"),
  ("ubs", "UBS"),
  ("ubs australia", "UBS"),
  ("morgan stanley", "Morgan Stanley"),
  ("morgan stanley australia", "Morgan Stanley"),
  ("citi", "Citi"),
  ("citigroup", "Citi"),
  ("citibank", "Citi"),
  ("jp morgan", "JP Morgan"),
  ("jpmorgan", "JP Morgan"),
  ("j.p. morgan chase", "JP Morgan"),
  ("bell potter", "Bell Potter"),
  ("bell potter securities", "Bell Potter"),
  ("kkr", "KKR"),
  ("kkr & co", "KKR"),
  ("kohlberg kravis roberts", "KKR"),
  ("tpg", "TPG"),
  ("tpg capital", "TPG"),
  ("carlyle", "Carlyle Group"),
  ("carlyle group", "Carlyle Group"),
  ("bgh capital", "BGH Capital"),
  ("affinity equity partners", "Affinity Equity Partners"),
  ("brookfield", "Brookfield"),
  ("brookfield asset management", "Brookfield"),
  ("accc", "ACCC"),
  ("australian competition and consumer commission", "ACCC"),
  ("asic", "ASIC"),
  ("australian securities and investments commission", "ASIC"),
  ("asx", "ASX"),
  ("australian securities exchange", "ASX"),
  ("ato", "ATO"),
  ("australian taxation office", "ATO"),
  ("apra", "APRA"),
  ("australian prudential regulation authority", "APRA"),
  ("link market services", "Link Market Services"),
  ("link administration", "Link Market Services"),
  ("computershare", "Computershare"),
  ("computershare limited", "Computershare"),
  ("sonic healthcare", "Sonic Healthcare"),
  ("sonic healthcare ltd", "Sonic Healthcare"),
  ("sonic healthcare ltd (asx: shl)", "Sonic Healthcare"),
  ("sonic healthcare (asx: shl)", "Sonic Healthcare"),
  ("healius", "Healius"),
  ("healius limited", "Healius"),
  ("healius ltd", "Healius"),
  ("ramsay health care", "Ramsay Health Care"),
  ("ramsay health care limited", "Ramsay Health Care"),
  ("healthscope", "Healthscope"),
  ("healthscope limited", "Healthscope"),
  ("australian clinical labs", "Australian Clinical Labs"),
  ("australian clinical labs ltd", "Australian Clinical Labs"),
  ("australian clinical labs ltd (asx: acl)", "Australian Clinical Labs"),
  ("australian retirement trust", "Australian Retirement Trust"),
  ("australian retirement trust pty ltd", "Australian Retirement Trust"),
  ("unisuper", "UniSuper"),
  ("unisuper limited", "UniSuper"),
  ("aware super", "Aware Super"),
  ("cbus", "Cbus"),
  ("cbus super", "Cbus"),
  ("hostplus", "Hostplus"),
  ("rest super", "REST Super"),
  ("perpetual limited", "Perpetual"),
  ("perpetual", "Perpetual"),
  ("allan gray", "Allan Gray"),
  ("allan gray australia", "Allan Gray"),
  ("allan gray australia pty ltd", "Allan Gray"),
  ("dimensional fund advisors", "DFA"),
  ("dfa", "DFA"),
  ("lazard asset management", "Lazard"),
  ("lazard", "Lazard")]

/-- The containment pass of the Tier 1 lookup: iterate the table in order,
returning the canonical name of the first entry whose alias is contained in
the (lower-cased) input name (`lowerName.includes(alias)`, source lines
253-257).  Note the check is one-directional. -/
def firstContainedIn : List (String × String) → String → Option String
  | [], _ => none
  | (a, c) :: rest, n => if strIncludes n a then some c else firstContainedIn rest n

/-! ## Tier 2: the suffix patterns (source lines 260-282)

Each entry of `suffixPatterns` is a case-insensitive regular expression
applied with `String.prototype.replace` (non-global: first, i.e. leftmost,
occurrence only, replaced by the empty string).  Each regex is compiled here
into a matcher `List Char → Option Nat` returning, for a given start
position, the number of characters the match consumes; the only regex
constructs involved are `\s*`/`\s+` followed by non-whitespace literals,
optional dots, bounded letter classes and the `$` anchor, for which greedy
matching with the obvious deterministic reading is equivalent to the
backtracking semantics (a shorter `\s*` run would leave a whitespace
character where a non-whitespace literal is required, and vice versa). -/

def isAsciiUpper (c : Char) : Bool := 'A' ≤ c && c ≤ 'Z'

def isAsciiLower (c : Char) : Bool := 'a' ≤ c && c ≤ 'z'

def isAsciiAlpha (c : Char) : Bool := isAsciiUpper c || isAsciiLower c

def isDigitOrDot (c : Char) : Bool := ('0' ≤ c && c ≤ '9') || c == '.'

/-- Case-insensitive literal: consume `lit` (given lower-case) from the
front of `l`, returning the remainder. -/
def dropLitCI (lit : List Char) (l : List Char) : Option (List Char) :=
  if (l.take lit.length).map Char.toLower == lit then some (l.drop lit.length)
  else none

/-- Consume an optional dot (`\.?`, greedy, unanchored position). -/
def dropOptDot : List Char → List Char
  | '.' :: r => r
  | l => l

/-- `/\s*\(asx:\s*[a-z]+\)/i` at one position. -/
def matchAsxParen (l : List Char) : Option Nat :=
  match l.dropWhile jsIsWs with
  | '(' :: l2 =>
    match dropLitCI "asx:".toList l2 with
    | some l3 =>
      let l4 := l3.dropWhile jsIsWs
      let letters := l4.takeWhile isAsciiAlpha
      if 1 ≤ letters.length then
        match l4.drop letters.length with
        | ')' :: rest => some (l.length - rest.length)
        | _ => none
      else none
    | none => none
  | _ => none

/-- `/\s*\([a-z]{2,4}\)/i` at one position.  The greedy bounded class
`[a-z]{2,4}` followed by `\)` succeeds exactly when the maximal letter run
after `(` has length 2 to 4 and is followed by `)` (any shorter prefix is
followed by a letter, not `)`). -/
def matchTickerParen (l : List Char) : Option Nat :=
  match l.dropWhile jsIsWs with
  | '(' :: l2 =>
    let letters := l2.takeWhile isAsciiAlpha
    if 2 ≤ letters.length && letters.length ≤ 4 then
      match l2.drop letters.length with
      | ')' :: rest => some (l.length - rest.length)
      | _ => none
    else none
  | _ => none

/-- `/\s*pty\.?\s*ltd\.?/i` at one position (not anchored at the end). -/
def matchPtyLtd (l : List Char) : Option Nat :=
  match dropLitCI "pty".toList (l.dropWhile jsIsWs) with
  | some l2 =>
    match dropLitCI "ltd".toList ((dropOptDot l2).dropWhile jsIsWs) with
    | some l3 => some (l.length - (dropOptDot l3).length)
    | none => none
  | none => none

/-- `/\s*WORD$/i`, or `/\s*WORD\.?$/i` when `optDot` is true, at one
position. -/
def matchEndWord (w : String) (optDot : Bool) (l : List Char) : Option Nat :=
  match dropLitCI w.toList (l.dropWhile jsIsWs) with
  | some l2 =>
    if l2.isEmpty then some l.length
    else if optDot && l2 == ['.'] then some l.length
    else none
  | none => none

/-- `/\s*&\s*co\.?$/i` at one position. -/
def matchAndCo (l : List Char) : Option Nat :=
  match l.dropWhile jsIsWs with
  | '&' :: l2 =>
    match dropLitCI "co".toList (l2.dropWhile jsIsWs) with
    | some l3 =>
      if l3.isEmpty || l3 == ['.'] then some l.length else none
    | none => none
  | _ => none

/-- `/\s*and\s+subsidiaries$/i` at one position. -/
def matchAndSubsidiaries (l : List Char) : Option Nat :=
  match dropLitCI "and".toList (l.dropWhile jsIsWs) with
  | some l2 =>
    let ws := l2.takeWhile jsIsWs
    if 1 ≤ ws.length then
      match dropLitCI "subsidiaries".toList (l2.drop ws.length) with
      | some l3 => if l3.isEmpty then some l.length else none
      | none => none
    else none
  | none => none

/-- `String.prototype.replace` with a non-global regex and the empty
replacement string: delete the leftmost match, if any. -/
def replFirst (matcher : List Char → Option Nat) (l : List Char) : List Char :=
  match matcher l with
  | some n => l.drop n
  | none =>
    match l with
    | [] => []
    | c :: rest => c :: replFirst matcher rest

/-- The `suffixPatterns` array, in source order. -/
def suffixMatchers : List (List Char → Option Nat) :=
  [matchAsxParen,
   matchTickerParen,
   matchPtyLtd,
   matchEndWord "limited" false,
   matchEndWord "ltd" true,
   matchEndWord "inc" true,
   matchEndWord "incorporated" false,
   matchEndWord "corporation" false,
   matchEndWord "corp" true,
   matchAndCo,
   matchAndSubsidiaries,
   matchEndWord "group" false,
   matchEndWord "holdings" false,
   matchEndWord "australia" false]

/-- The suffix-stripping loop (source lines 277-279): apply each pattern in
order, each deleting its first occurrence. -/
def applySuffixPatterns (l : List Char) : List Char :=
  suffixMatchers.foldl (fun cur m => replFirst m cur) l

/-- `normalized.replace(/\s+/g, ' ')`: collapse every whitespace run to one
space. -/
def collapseWs : List Char → List Char
  | [] => []
  | [c] => if jsIsWs c then [' '] else [c]
  | c1 :: c2 :: rest =>
    if jsIsWs c1 && jsIsWs c2 then collapseWs (c2 :: rest)
    else (if jsIsWs c1 then ' ' else c1) :: collapseWs (c2 :: rest)

/-- `split(' ')`: split on every single space character (adjacent spaces
yield empty segments, exactly as in JavaScript). -/
def splitOnSpace : List Char → List (List Char)
  | [] => [[]]
  | c :: rest =>
    if c = ' ' then [] :: splitOnSpace rest
    else
      match splitOnSpace rest with
      | [] => [[c]]
      | w :: ws => (c :: w) :: ws

/-- `join(' ')`. -/
def joinWithSpace : List (List Char) → List Char
  | [] => []
  | [w] => w
  | w :: ws => w ++ ' ' :: joinWithSpace ws

/-- One word of the title-casing step (source lines 288-294): words of
length at most 4 that are already all upper-case are kept (acronyms);
otherwise the first character is upper-cased and the rest lower-cased. -/
def titleWordChars (w : List Char) : List Char :=
  if w.length ≤ 4 && w == w.map Char.toUpper then w
  else
    match w with
    | [] => []
    | c :: rest => Char.toUpper c :: rest.map Char.toLower

/-- `normalized.split(' ').map(titleWord).join(' ')`. -/
def titleCaseChars (l : List Char) : List Char :=
  joinWithSpace ((splitOnSpace l).map titleWordChars)

/-- Tier 2 on an already-trimmed name: suffix stripping, whitespace
collapse, trim, then title-casing when non-empty (source lines 260-298). -/
def suffixAndTitleNormalize (t : String) : String :=
  let stripped := applySuffixPatterns t.toList
  let cleaned := trimChars (collapseWs stripped)
  if 0 < cleaned.length then String.mk (titleCaseChars cleaned)
  else String.mk cleaned

/-- `normalizeEntityName` (source lines 110-299): trim; exact
case-insensitive alias-table hit wins (all table values are non-empty, so
the JavaScript truthiness test is a presence test); otherwise the first
table entry whose alias the lowered name contains wins; otherwise Tier 2. -/
def normalizeEntityName (name : String) : String :=
  let t := jsTrim name
  let lowerName := lowerStr t
  match List.lookup lowerName knownEntities with
  | some c => c
  | none =>
    match firstContainedIn knownEntities lowerName with
    | some c => c
    | none => suffixAndTitleNormalize t

/-! ## The exposure aggregator
(`calculateWhoCaresFromRelationships`, src/api/discover-batch.ts lines
583-617)

JavaScript `Map`s keep keys in first-insertion order and `set` on an
existing key updates the value in place; `Set.add` appends an element not
yet present.  Both are modelled as lists with the update functions below.
The two nested `for` loops iterate companies and, inside each, its
relationships; that traversal is flattened into `relPairs`.  The loop body
maintains two maps keyed by the trimmed entity name — the ticker set
`entityMap` and the representative details `entityDetails` (overwritten on
every relationship) — modelled as two independent folds over the same pair
sequence. -/

/-- `Set.prototype.add`: append if not already present. -/
def setAdd (s : List String) (t : String) : List String :=
  if t ∈ s then s else s ++ [t]

/-- `Map.prototype.set`: update in place if the key exists, else append. -/
def mapSet {α : Type} (m : List (String × α)) (k : String) (v : α) :
    List (String × α) :=
  match m with
  | [] => [(k, v)]
  | (k', v') :: rest =>
    if k' = k then (k, v) :: rest else (k', v') :: mapSet rest k v

/-- The `entityMap` update for one relationship: create the key with an
empty set if absent, then `add` the company ticker. -/
def addTicker (m : List (String × List String)) (k t : String) :
    List (String × List String) :=
  match m with
  | [] => [(k, [t])]
  | (k', s) :: rest =>
    if k' = k then (k', setAdd s t) :: rest else (k', s) :: addTicker rest k t

/-- The company-then-relationship iteration order, as (ticker,
relationship) pairs. -/
def relPairs (companies : List CompanyWithRels) : List (String × Relationship) :=
  (companies.map (fun c => c.relationships.map (fun r => (c.ticker, r)))).flatten

/-- One step of the `entityMap` construction (source lines 591-595). -/
def stepEM (em : List (String × List String)) (p : String × Relationship) :
    List (String × List String) :=
  addTicker em (jsTrim p.2.entity_name) p.1

/-- One step of the `entityDetails` construction (source line 596): `set`
unconditionally, so the last relationship encountered wins. -/
def stepED (ed : List (String × (String × String))) (p : String × Relationship) :
    List (String × (String × String)) :=
  mapSet ed (jsTrim p.2.entity_name) (p.2.entity_type, p.2.category)

def buildEntityMap (pairs : List (String × Relationship)) :
    List (String × List String) :=
  pairs.foldl stepEM []

def buildEntityDetails (pairs : List (String × Relationship)) :
    List (String × (String × String)) :=
  pairs.foldl stepED []

/-- The record constructor of lines 602-614: the non-null assertion
`entityDetails.get(name)!` is modelled with a default that is never
reached. -/
def mkWhoCares (ed : List (String × (String × String)))
    (p : String × List String) : WhoCaresEntity :=
  let d := (List.lookup p.1 ed).getD ("", "")
  { entity_name := p.1
    entity_type := d.1
    category := d.2
    exposure_count := p.2.length
    exposed_companies := p.2
    exposure_details := p.2.map (fun t => ⟨t, d.2⟩) }

/-- Lines 600-615: filter to ticker sets of size at least 2 and build the
output records. -/
def whoCaresUnsorted (companies : List CompanyWithRels) : List WhoCaresEntity :=
  ((buildEntityMap (relPairs companies)).filter
      (fun p => decide (2 ≤ p.2.length))).map
    (mkWhoCares (buildEntityDetails (relPairs companies)))

/-- Stable insertion step for the descending sort: an element keeps walking
past entries with a greater-or-equal count, so ties preserve insertion
order. -/
def insertDesc (x : WhoCaresEntity) : List WhoCaresEntity → List WhoCaresEntity
  | [] => [x]
  | y :: ys =>
    if x.exposure_count ≤ y.exposure_count then y :: insertDesc x ys
    else x :: y :: ys

/-- `.sort((a, b) => b.exposure_count - a.exposure_count)` (line 616).
`Array.prototype.sort` is stable per the ECMAScript specification, and a
stable sort by a comparator has a unique result; it is realised here as a
stable insertion sort. -/
def sortByExposureDesc (l : List WhoCaresEntity) : List WhoCaresEntity :=
  l.foldl (fun acc x => insertDesc x acc) []

def calculateWhoCaresFromRelationships (companies : List CompanyWithRels) :
    List WhoCaresEntity :=
  sortByExposureDesc (whoCaresUnsorted companies)

/-- The descending comparison realised by the sort comparator
`(a, b) => b.exposure_count - a.exposure_count`. -/
def descCount (a b : WhoCaresEntity) : Prop := b.exposure_count ≤ a.exposure_count

/-! ## Tier 3: batched semantic resolution
(`resolveEntitiesSemantically` and step 4 of the semantic handler,
src/api/discover-batch.ts lines 1529-1826)

The external call is modelled by its observable outcome: `none` for any
failure the source maps to the identity fallback (non-OK HTTP status, no
JSON object in the response, thrown error), `some mappings` for a
successfully parsed JSON object given as its entry list. -/

/-- `new Map(Object.entries(mappings))`: later duplicate keys overwrite
earlier ones, first-insertion order. -/
def jsMapOfEntries (entries : List (String × String)) : List (String × String) :=
  entries.foldl (fun m p => mapSet m p.1 p.2) []

/-- `resolveEntitiesSemantically` (lines 1743-1826): empty input short
circuits to an empty map; any failure returns the identity map over the
requested names; a successful response is returned as-is — names missing
from it are NOT filled in here. -/
def resolveEntitiesSemantically (entityNames : List String)
    (response : Option (List (String × String))) : List (String × String) :=
  if entityNames.isEmpty then []
  else
    match response with
    | none => entityNames.map (fun n => (n, n))
    | some mappings => jsMapOfEntries mappings

/-- Step 4 of the handler (line 1587):
`resolvedNames.get(entity.name) || entity.name`.  JavaScript `||` also
falls back when the mapped value is the empty string (falsy). -/
def applyResolvedName (resolved : List (String × String)) (n : String) : String :=
  match List.lookup n resolved with
  | some c => if c = "" then n else c
  | none => n

/-- The effective raw-name → canonical-name mapping the handler applies to
the batch's distinct raw names (lines 1578-1594). -/
def finalEntityMapping (entityNames : List String)
    (response : Option (List (String × String))) : List (String × String) :=
  entityNames.map (fun n => (n, applyResolvedName
    (resolveEntitiesSemantically entityNames response) n))

/-! ## The free-text company normalizer fallback
(`extractCompaniesFromText`, src/api/parse-companies.ts lines 91-116 ==
src/server/routes/parse-companies.ts lines 59-85)

The single global pattern
`/([A-Z][a-zA-Z\s&]+?)\s*\(([A-Z]{1,4})\)(?:\s*[-–]?\s*([0-9.]+)%)?/g`
is executed repeatedly.  Hand compilation: at a start position the engine
needs an upper-case letter, then the lazy group grows one class character
at a time until `\s*\(` `TICKER` `\)` matches immediately after it
(whitespace before `(` can only be consumed by the maximal `\s*` run
because `(` is not in `\s`); the ticker is a maximal upper-case run of
length 1-4 followed by `)`; the optional trailing group consumes
`\s*[-–]?\s*`, then a maximal `[0-9.]` run that must be followed by `%`
(shorter runs are followed by a digit or dot, so no backtracking succeeds),
and on failure matches the empty string.  `exec` resumes scanning at the
end of the previous match. -/

def nameClassChar (c : Char) : Bool := isAsciiAlpha c || jsIsWs c || c == '&'

/-- The optional stress group: returns the captured digit run and the
number of characters consumed (0 when the group matches empty). -/
def tryStress (l : List Char) : Option (List Char) × Nat :=
  let l1 := l.dropWhile jsIsWs
  let l2 := match l1 with
    | '-' :: r => r
    | '–' :: r => r
    | _ => l1
  let l3 := l2.dropWhile jsIsWs
  let digits := l3.takeWhile isDigitOrDot
  if 1 ≤ digits.length then
    match l3.drop digits.length with
    | '%' :: rest => (some digits, l.length - rest.length)
    | _ => (none, 0)
  else (none, 0)

/-- `\s*\(([A-Z]{1,4})\)` plus the optional stress group, tried right after
the lazy name group.  Returns (ticker, stress capture, characters
consumed). -/
def afterName (l : List Char) : Option (List Char × Option (List Char) × Nat) :=
  let l1 := l.dropWhile jsIsWs
  match l1 with
  | '(' :: l2 =>
    let tk := l2.takeWhile isAsciiUpper
    if 1 ≤ tk.length && tk.length ≤ 4 then
      match l2.drop tk.length with
      | ')' :: l3 =>
        let (st, sn) := tryStress l3
        some (tk, st, (l.length - l3.length) + sn)
      | _ => none
    else none
  | _ => none

/-- Grow the lazy name group one class character at a time; at each length
test whether the rest of the pattern matches immediately after.  Returns
(name-group tail, ticker, stress, characters consumed from the start of the
tail). -/
def lazyNameTail (acc : List Char) :
    List Char → Option (List Char × List Char × Option (List Char) × Nat)
  | [] => none
  | c :: rest =>
    if nameClassChar c then
      match afterName rest with
      | some (tk, st, n) => some (acc ++ [c], tk, st, acc.length + 1 + n)
      | none => lazyNameTail (acc ++ [c]) rest
    else none

/-- One attempted match at a fixed start position. -/
def tryMatchAt : List Char → Option (List Char × List Char × Option (List Char) × Nat)
  | [] => none
  | c :: rest =>
    if isAsciiUpper c then
      match lazyNameTail [] rest with
      | some (tail, tk, st, n) => some (c :: tail, tk, st, n + 1)
      | none => none
    else none

/-- The `while ((match = pattern.exec(text)) !== null)` loop: scan left to
right, and after a match continue at its end.  Every match consumes at
least one character, so the input length bounds the iteration count. -/
def scanMatchesAux (fuel : Nat) (l : List Char) :
    List (List Char × List Char × Option (List Char)) :=
  match fuel with
  | 0 => []
  | fuel + 1 =>
    match l with
    | [] => []
    | c :: rest =>
      match tryMatchAt (c :: rest) with
      | some (nm, tk, st, n) => (nm, tk, st) :: scanMatchesAux fuel (l.drop n)
      | none => scanMatchesAux fuel rest

def scanMatches (l : List Char) :
    List (List Char × List Char × Option (List Char)) :=
  scanMatchesAux l.length l

/-- The `seen`-set deduplication by `name|ticker` and record construction
(source lines 98-113). -/
def buildCompanies (seen : List String) :
    List (List Char × List Char × Option (List Char)) → List ParsedCompany
  | [] => []
  | (nm, tk, st) :: rest =>
    let name := jsTrim (String.mk nm)
    let ticker := upperStr (String.mk tk)
    let key := name ++ "|" ++ ticker
    if key ∈ seen then buildCompanies seen rest
    else
      { name := name
        ticker := ticker
        exchange := "ASX"
        stress_signal := st.map (fun d => "-" ++ String.mk d ++ "%") } ::
      buildCompanies (seen ++ [key]) rest

def extractCompaniesFromText (text : String) : List ParsedCompany :=
  buildCompanies [] (scanMatches text.toList)

/-! ## Specification-side observation functions

These restate, independently of the aggregator's internal maps, what "the
first/last relationship encountered for an entity" and "the distinct
tickers of companies mentioning an entity" mean in company-then-relationship
iteration order.  Entity names are compared after `trim`, as the aggregator
does. -/

/-- The `{entityKind, category}` of the first relationship encountered for
entity `k`. -/
def firstDetail : List (String × Relationship) → String → Option (String × String)
  | [], _ => none
  | p :: rest, k =>
    if jsTrim p.2.entity_name = k then some (p.2.entity_type, p.2.category)
    else firstDetail rest k

/-- The `{entityKind, category}` of the last relationship encountered for
entity `k`. -/
def lastDetail (pairs : List (String × Relationship)) (k : String) :
    Option (String × String) :=
  pairs.foldl
    (fun acc p =>
      if jsTrim p.2.entity_name = k then some (p.2.entity_type, p.2.category)
      else acc)
    none

/-- The distinct tickers of companies mentioning entity `k`, in first-
encounter order, starting from `init`. -/
def tickStep (k : String) (acc : List String) (p : String × Relationship) :
    List String :=
  if jsTrim p.2.entity_name = k then setAdd acc p.1 else acc

def mentionTickers (companies : List CompanyWithRels) (k : String) : List String :=
  (relPairs companies).foldl (tickStep k) []

/-! ## Concrete scenarios used by counterexamples and witnesses -/

/-- Three companies, one entity touched with categories shareholder /
director / shareholder in encounter order (spec scenario 5). -/
def scenarioThree : List CompanyWithRels :=
  [⟨"Alpha", "AAA", "ASX", none, [⟨"BDO", "firm", "shareholder", "a"⟩]⟩,
   ⟨"Beta", "BBB", "ASX", none, [⟨"BDO", "firm", "director", "b"⟩]⟩,
   ⟨"Gamma", "CCC", "ASX", none, [⟨"BDO", "firm", "shareholder", "c"⟩]⟩]

/-- Two companies whose shared entity is first encountered as "auditor" and
last as "advisor". -/
def scenarioFirstLast : List CompanyWithRels :=
  [⟨"Alpha", "AAA", "ASX", none, [⟨"BDO", "firm", "auditor", "a"⟩]⟩,
   ⟨"Beta", "BBB", "ASX", none, [⟨"BDO", "firm", "advisor", "b"⟩]⟩]

/-- The single entity the aggregator emits on `scenarioThree`. -/
def scenarioThreeEntity : WhoCaresEntity :=
  ⟨"BDO", "firm", "shareholder", 3, ["AAA", "BBB", "CCC"],
   [⟨"AAA", "shareholder"⟩, ⟨"BBB", "shareholder"⟩, ⟨"CCC", "shareholder"⟩]⟩

/-- C1 counterexample. The claim says the representative category is the
first one encountered; on this input the first relationship for "BDO" is an
"auditor" one, yet the emitted entity carries "advisor", the last one. -/
theorem whoCares_primaryCategory_not_first_cex :
    firstDetail (relPairs scenarioFirstLast) "BDO" = some ("firm", "auditor") ∧
    (calculateWhoCaresFromRelationships scenarioFirstLast).map
      (fun e => e.category) = ["advisor"] ∧
    ("advisor" : String) ≠ "auditor" := by
  refine ⟨by decide, by decide, by decide⟩

/-- C2 counterexample. On the shareholder/director/shareholder scenario the
middle company's own relationship category is "director", but its exposure
detail carries "shareholder": every detail repeats the representative
category instead of the company's own. -/
theorem whoCares_exposureDetails_not_own_cex :
    ((scenarioThree.map (fun c => c.relationships)).flatten).map
      (fun r => (r.entity_name, r.category)) =
      [("BDO", "shareholder"), ("BDO", "director"), ("BDO", "shareholder")] ∧
    (calculateWhoCaresFromRelationships scenarioThree).map
      (fun e => e.exposure_details) =
      [[⟨"AAA", "shareholder"⟩, ⟨"BBB", "shareholder"⟩, ⟨"CCC", "shareholder"⟩]] ∧
    ("shareholder" : String) ≠ "director" := by
  refine ⟨by decide, by decide, by decide⟩

/-- C6 counterexample. "ernst & youn" is contained by the known alias
"ernst & young" (reverse-direction containment), contains no alias itself
and has no exact hit, so by the claim the Tier 1 lookup should return
"Ernst & Young"; the code instead falls through to Tier 2 and returns
"Ernst & Youn". -/
theorem normalize_no_reverse_containment_cex :
    strIncludes "ernst & young" "ernst & youn" = true ∧
    List.lookup "ernst & youn" knownEntities = none ∧
    (knownEntities.all fun p => !(strIncludes "ernst & youn" p.1)) = true ∧
    normalizeEntityName "ernst & youn" = "Ernst & Youn" ∧
    ("Ernst & Youn" : String) ≠ "Ernst & Young" := by
  refine ⟨by decide, by decide, by decide, by decide, by decide⟩

/-- C7 counterexample. The canonicalizer maps "jp morgan nominees
australia" to its table value "JP Morgan Nominees", but a second
application maps that output to "JP Morgan" (via the contains-"jp morgan"
rule), so outputs are not all fixed points. -/
theorem normalize_not_idempotent_cex :
    normalizeEntityName "jp morgan nominees australia" = "JP Morgan Nominees" ∧
    normalizeEntityName
        (normalizeEntityName "jp morgan nominees australia") = "JP Morgan" ∧
    ("JP Morgan" : String) ≠ "JP Morgan Nominees" := by
  refine ⟨by decide, by decide, by decide⟩

/-- C9 counterexample. With a partial Tier 3 response missing
"KPMG Australia", the handler assigns that name its raw form unchanged,
which differs from its Tier 1/2 canonical result "KPMG". -/
theorem semantic_fallback_not_tier12_cex :
    applyResolvedName
        (resolveEntitiesSemantically ["KPMG Australia", "Ernst & Young"]
          (some [("Ernst & Young", "Ernst & Young")]))
        "KPMG Australia" = "KPMG Australia" ∧
    normalizeEntityName "KPMG Australia" = "KPMG" ∧
    ("KPMG Australia" : String) ≠ "KPMG" := by
  refine ⟨by decide, by decide, by decide⟩

/-- C10: evaluating the regex fallback of the free-text company normalizer
on the input named by the claim.  Only the "Name (TICKER)" pattern is
implemented, so of the two companies only Terracom Ltd is extracted; the
"Monash IVF ASX:MVF" line yields nothing. -/
theorem extractCompanies_failing_input_eval :
    extractCompaniesFromText
        "Monash IVF ASX:MVF -10.37%\nTerracom Ltd (TER) -26.67%" =
      [⟨"Terracom Ltd", "TER", "ASX", some "-26.67%"⟩] := by
  decide

/-! ## Canonicalizer theorems (C6, C7) -/

/-- C6 (amended): the Tier 1 lookup tries an exact case-insensitive table
hit first; failing that, it scans the table in fixed order for the first
entry whose alias the lowered input CONTAINS (one direction only); failing
both, the result is the Tier 2 suffix/casing normalization of the trimmed
input.  The direction "input contained by a known alias" is not consulted
(see the counterexample). -/
theorem normalize_tier1_exact_then_forward_containment (s : String) :
    (∀ c, List.lookup (lowerStr (jsTrim s)) knownEntities = some c →
      normalizeEntityName s = c) ∧
    (List.lookup (lowerStr (jsTrim s)) knownEntities = none →
      ∀ c, firstContainedIn knownEntities (lowerStr (jsTrim s)) = some c →
        normalizeEntityName s = c) ∧
    (List.lookup (lowerStr (jsTrim s)) knownEntities = none →
      firstContainedIn knownEntities (lowerStr (jsTrim s)) = none →
      normalizeEntityName s = suffixAndTitleNormalize (jsTrim s)) := by
  refine ⟨fun c hc => ?_, fun h c hc => ?_, fun h hc => ?_⟩
  · simp [normalizeEntityName, hc]
  · simp [normalizeEntityName, h, hc]
  · simp [normalizeEntityName, h, hc]

/-- Witness for C6's amended theorem: one instantiation per tier.
"KPMG Australia" hits the table exactly; "the vanguard group pty" has no
exact hit but contains the alias "vanguard group" (first containment hit in
table order); "Acme Widgets Pty Ltd" matches no table entry and receives
the Tier 2 result. -/
theorem normalize_tier1_exact_then_forward_containment_witness :
    normalizeEntityName "KPMG Australia" = "KPMG" ∧
    normalizeEntityName "the vanguard group pty" = "Vanguard" ∧
    normalizeEntityName "Acme Widgets Pty Ltd" =
      suffixAndTitleNormalize (jsTrim "Acme Widgets Pty Ltd") := by
  refine ⟨(normalize_tier1_exact_then_forward_containment "KPMG Australia").1
      "KPMG" (by decide),
    (normalize_tier1_exact_then_forward_containment "the vanguard group pty").2.1
      (by decide) "Vanguard" (by decide),
    (normalize_tier1_exact_then_forward_containment "Acme Widgets Pty Ltd").2.2
      (by decide) (by decide)⟩

/-- C7 (amended): idempotence holds on the alias-table fixed points — any
trimmed name whose lower-case form is a table key mapping back to the name
itself is left unchanged — but not on every output (see the
counterexample). -/
theorem normalize_fixed_point_of_table_selfmap (c : String)
    (htrim : jsTrim c = c)
    (hkey : List.lookup (lowerStr c) knownEntities = some c) :
    normalizeEntityName c = c := by
  simp [normalizeEntityName, htrim, hkey]

/-- Witness for C7's amended theorem at the table value "PwC". -/
theorem normalize_fixed_point_of_table_selfmap_witness :
    normalizeEntityName "PwC" = "PwC" :=
  normalize_fixed_point_of_table_selfmap "PwC" (by decide) (by decide)

/-! ## Semantic-resolution theorems (C8, C9) -/

/-- Names map to themselves in the identity map. -/
theorem lookup_map_id (names : List String) (n : String) (hn : n ∈ names) :
    List.lookup n (names.map fun m => (m, m)) = some n := by
  induction names with
  | nil => cases hn
  | cons a as ih =>
    by_cases h : n = a
    · subst h; simp [List.lookup]
    · rcases List.mem_cons.mp hn with h' | h'
      · exact absurd h' h
      · have hb : (n == a) = false := by simp [h]
        simp [List.lookup, hb, ih h']

/-- C8: the effective raw-name → canonical-name mapping applied by the
semantic handler is total over its input — its keys are exactly the
requested names, in order — and any name the Tier 3 response does not
resolve maps to itself. -/
theorem semantic_mapping_total (names : List String)
    (resp : Option (List (String × String))) :
    (finalEntityMapping names resp).map Prod.fst = names ∧
    ∀ n, n ∈ names →
      List.lookup n (resolveEntitiesSemantically names resp) = none →
      (n, n) ∈ finalEntityMapping names resp := by
  constructor
  · simp only [finalEntityMapping, List.map_map]
    exact List.map_id names
  · intro n hn hnone
    have happ : applyResolvedName (resolveEntitiesSemantically names resp) n = n := by
      simp [applyResolvedName, hnone]
    have hmem := List.mem_map_of_mem
      (fun m => (m, applyResolvedName (resolveEntitiesSemantically names resp) m)) hn
    simp only [finalEntityMapping]
    simpa [happ] using hmem

/-- Witness for C8 on a two-name batch with a partial Tier 3 response. -/
theorem semantic_mapping_total_witness :
    ("KPMG Australia", "KPMG Australia") ∈
      finalEntityMapping ["KPMG Australia", "Ernst & Young"]
        (some [("Ernst & Young", "Ernst & Young")]) :=
  (semantic_mapping_total ["KPMG Australia", "Ernst & Young"]
      (some [("Ernst & Young", "Ernst & Young")])).2
    "KPMG Australia" (by decide) (by decide)

/-- C9 (amended): a requested name the Tier 3 response leaves unresolved is
assigned its RAW form unchanged (identity fallback), and an outright Tier 3
failure likewise resolves every requested name to itself — in neither case
is the Tier 1/2 result consulted (see the counterexample), and no error
escapes (the resolution is a total function). -/
theorem semantic_fallback_identity (names : List String)
    (resp : Option (List (String × String))) (n : String) (hn : n ∈ names) :
    (List.lookup n (resolveEntitiesSemantically names resp) = none →
      applyResolvedName (resolveEntitiesSemantically names resp) n = n) ∧
    (resp = none →
      applyResolvedName (resolveEntitiesSemantically names resp) n = n) := by
  constructor
  · intro hnone
    simp [applyResolvedName, hnone]
  · intro hresp
    subst hresp
    cases names with
    | nil => cases hn
    | cons a as =>
      have hne : ((a :: as : List String).isEmpty) = false := rfl
      have hlk := lookup_map_id (a :: as) n hn
      simp only [resolveEntitiesSemantically, hne, Bool.false_eq_true,
        if_false, applyResolvedName, hlk]
      split <;> rfl

/-- Witness for C9's amended theorem: outright failure on a one-name
batch. -/
theorem semantic_fallback_identity_witness :
    applyResolvedName
        (resolveEntitiesSemantically ["KPMG Australia"] none)
        "KPMG Australia" = "KPMG Australia" :=
  (semantic_fallback_identity ["KPMG Australia"] none "KPMG Australia"
      (by decide)).2 rfl

/-! ## Aggregator lemmas: the two maps built by the first loop -/

theorem lookup_cons_self {α : Type} (k : String) (v : α) (rest : List (String × α)) :
    List.lookup k ((k, v) :: rest) = some v := by
  simp [List.lookup]

theorem lookup_cons_ne {α : Type} (k k₀ : String) (v₀ : α) (rest : List (String × α))
    (h : ¬ k = k₀) :
    List.lookup k ((k₀, v₀) :: rest) = List.lookup k rest := by
  have hb : (k == k₀) = false := by simp [h]
  simp [List.lookup, hb]

theorem lookup_mapSet {α : Type} (m : List (String × α)) (k : String) (v : α)
    (k' : String) :
    List.lookup k' (mapSet m k v) = if k' = k then some v else List.lookup k' m := by
  induction m with
  | nil =>
    by_cases h : k' = k
    · subst h; simp [mapSet, lookup_cons_self]
    · simp [mapSet, h, lookup_cons_ne k' k v [] h]
  | cons p rest ih =>
    obtain ⟨k₀, v₀⟩ := p
    by_cases h1 : k₀ = k
    · subst h1
      by_cases h2 : k' = k₀
      · subst h2
        simp [mapSet, lookup_cons_self]
      · simp [mapSet, fun h => h2 (h : k' = k₀).symm.symm, h2,
          lookup_cons_ne k' k₀ v [] h2, lookup_cons_ne k' k₀ v rest h2,
          lookup_cons_ne k' k₀ v₀ rest h2]
    · have hne : ¬ k₀ = k := h1
      by_cases h2 : k' = k₀
      · subst h2
        have hkk : ¬ k' = k := fun hh => h1 (hh ▸ rfl)
        simp [mapSet, h1, lookup_cons_self, hkk]
      · rw [show mapSet ((k₀, v₀) :: rest) k v = (k₀, v₀) :: mapSet rest k v by
              simp [mapSet, h1],
            lookup_cons_ne k' k₀ v₀ (mapSet rest k v) h2, ih,
            lookup_cons_ne k' k₀ v₀ rest h2]

theorem lookup_addTicker (m : List (String × List String)) (k t k' : String) :
    List.lookup k' (addTicker m k t) =
      if k' = k then some (setAdd ((List.lookup k' m).getD []) t)
      else List.lookup k' m := by
  induction m with
  | nil =>
    by_cases h : k' = k
    · subst h; simp [addTicker, lookup_cons_self, setAdd]
    · simp [addTicker, h, lookup_cons_ne k' k [t] [] h]
  | cons p rest ih =>
    obtain ⟨k₀, s₀⟩ := p
    by_cases h1 : k₀ = k
    · subst h1
      by_cases h2 : k' = k₀
      · subst h2
        simp [addTicker, lookup_cons_self]
      · simp [addTicker, h2, lookup_cons_ne k' k₀ (setAdd s₀ t) rest h2,
          lookup_cons_ne k' k₀ s₀ rest h2]
    · by_cases h2 : k' = k₀
      · subst h2
        have hkk : ¬ k' = k := fun hh => h1 (hh ▸ rfl)
        simp [addTicker, h1, lookup_cons_self, hkk]
      · rw [show addTicker ((k₀, s₀) :: rest) k t = (k₀, s₀) :: addTicker rest k t by
              simp [addTicker, h1],
            lookup_cons_ne k' k₀ s₀ (addTicker rest k t) h2, ih,
            lookup_cons_ne k' k₀ s₀ rest h2]

/-- The entity-map fold, per key: looking up `k` after the fold gives the
`tickStep` fold of that key alone (with `[]` standing for an absent key, a
reading made harmless because every stored set is non-empty). -/
theorem getD_foldl_stepEM (pairs : List (String × Relationship)) :
    ∀ (em : List (String × List String)) (k : String),
      ((pairs.foldl stepEM em).lookup k).getD [] =
        pairs.foldl (tickStep k) ((List.lookup k em).getD []) := by
  induction pairs with
  | nil => intro em k; rfl
  | cons p ps ih =>
    intro em k
    have h1 : List.lookup k (stepEM em p) =
        if k = jsTrim p.2.entity_name
        then some (setAdd ((List.lookup k em).getD []) p.1)
        else List.lookup k em := lookup_addTicker em (jsTrim p.2.entity_name) p.1 k
    have h2 : (List.lookup k (stepEM em p)).getD [] =
        tickStep k ((List.lookup k em).getD []) p := by
      rw [h1, tickStep]
      by_cases h : jsTrim p.2.entity_name = k
      · simp [h]
      · have h' : ¬ k = jsTrim p.2.entity_name := fun hh => h hh.symm
        simp [h, h']
    calc ((List.foldl stepEM em (p :: ps)).lookup k).getD []
        = ((ps.foldl stepEM (stepEM em p)).lookup k).getD [] := rfl
      _ = ps.foldl (tickStep k) ((List.lookup k (stepEM em p)).getD []) :=
          ih (stepEM em p) k
      _ = ps.foldl (tickStep k) (tickStep k ((List.lookup k em).getD []) p) := by
          rw [h2]
      _ = List.foldl (tickStep k) ((List.lookup k em).getD []) (p :: ps) := rfl

/-- Key presence in the entity map: `k` is absent after the fold exactly
when it was absent before and no processed relationship mentions it. -/
theorem lookup_foldl_stepEM_eq_none_iff (pairs : List (String × Relationship)) :
    ∀ (em : List (String × List String)) (k : String),
      List.lookup k (pairs.foldl stepEM em) = none ↔
        List.lookup k em = none ∧ ∀ p ∈ pairs, jsTrim p.2.entity_name ≠ k := by
  induction pairs with
  | nil => intro em k; simp
  | cons p ps ih =>
    intro em k
    have h1 : List.lookup k (stepEM em p) =
        if k = jsTrim p.2.entity_name
        then some (setAdd ((List.lookup k em).getD []) p.1)
        else List.lookup k em := lookup_addTicker em (jsTrim p.2.entity_name) p.1 k
    constructor
    · intro h
      have := (ih (stepEM em p) k).mp h
      by_cases hk : k = jsTrim p.2.entity_name
      · rw [h1, if_pos hk] at this
        exact absurd this.1 (by simp)
      · rw [h1, if_neg hk] at this
        refine ⟨this.1, ?_⟩
        intro q hq
        rcases List.mem_cons.mp hq with h' | h'
        · subst h'; exact fun hh => hk hh.symm
        · exact this.2 q h'
    · intro ⟨hnone, hall⟩
      apply (ih (stepEM em p) k).mpr
      have hk : ¬ k = jsTrim p.2.entity_name :=
        fun hh => hall p (List.mem_cons_self p ps) hh.symm
      refine ⟨by rw [h1, if_neg hk]; exact hnone, ?_⟩
      intro q hq
      exact hall q (List.mem_cons_of_mem p hq)

/-- Writing the `lastDetail` fold from an arbitrary accumulator. -/
theorem lastDetail_foldl_acc (pairs : List (String × Relationship)) (k : String) :
    ∀ acc : Option (String × String),
      pairs.foldl
        (fun acc p =>
          if jsTrim p.2.entity_name = k then some (p.2.entity_type, p.2.category)
          else acc) acc =
      match lastDetail pairs k with
      | some d => some d
      | none => acc := by
  induction pairs with
  | nil => intro acc; simp [lastDetail]
  | cons p ps ih =>
    intro acc
    by_cases h : jsTrim p.2.entity_name = k
    · show ps.foldl _ (if jsTrim p.2.entity_name = k then _ else acc) = _
      rw [if_pos h, ih]
      have : lastDetail (p :: ps) k =
          match lastDetail ps k with
          | some d => some d
          | none => some (p.2.entity_type, p.2.category) := by
        show ps.foldl _ (if jsTrim p.2.entity_name = k then _ else none) = _
        rw [if_pos h, ih]
      rw [this]
      cases lastDetail ps k <;> rfl
    · show ps.foldl _ (if jsTrim p.2.entity_name = k then _ else acc) = _
      rw [if_neg h, ih]
      have : lastDetail (p :: ps) k = lastDetail ps k := by
        show ps.foldl _ (if jsTrim p.2.entity_name = k then _ else none) = _
        rw [if_neg h]; rfl
      rw [this]

/-- The details map per key: after the fold, looking up `k` returns the
last matching relationship's `{type, category}`. -/
theorem lookup_foldl_stepED (pairs : List (String × Relationship)) :
    ∀ (ed : List (String × (String × String))) (k : String),
      List.lookup k (pairs.foldl stepED ed) =
        match lastDetail pairs k with
        | some d => some d
        | none => List.lookup k ed := by
  induction pairs with
  | nil => intro ed k; simp [lastDetail]
  | cons p ps ih =>
    intro ed k
    have h1 : List.lookup k (stepED ed p) =
        if k = jsTrim p.2.entity_name
        then some (p.2.entity_type, p.2.category)
        else List.lookup k ed :=
      lookup_mapSet ed (jsTrim p.2.entity_name) (p.2.entity_type, p.2.category) k
    have hps : List.foldl stepED ed (p :: ps) = ps.foldl stepED (stepED ed p) := rfl
    rw [hps, ih]
    have hlast : lastDetail (p :: ps) k =
        match lastDetail ps k with
        | some d => some d
        | none =>
          if jsTrim p.2.entity_name = k then some (p.2.entity_type, p.2.category)
          else none := by
      show ps.foldl _ (if jsTrim p.2.entity_name = k then _ else none) = _
      rw [lastDetail_foldl_acc]
    rw [hlast, h1]
    by_cases h : jsTrim p.2.entity_name = k
    · have h' : k = jsTrim p.2.entity_name := h.symm
      cases lastDetail ps k with
      | none => rw [if_pos h, if_pos h']
      | some d => rfl
    · have h' : ¬ k = jsTrim p.2.entity_name := fun hh => h hh.symm
      cases lastDetail ps k with
      | none => rw [if_neg h, if_neg h']
      | some d => rfl

/-- `lastDetail` is `none` exactly when no relationship mentions `k`. -/
theorem lastDetail_eq_none_iff (pairs : List (String × Relationship)) (k : String) :
    lastDetail pairs k = none ↔ ∀ p ∈ pairs, jsTrim p.2.entity_name ≠ k := by
  induction pairs with
  | nil => simp [lastDetail]
  | cons p ps ih =>
    have hstep : lastDetail (p :: ps) k =
        match lastDetail ps k with
        | some d => some d
        | none =>
          if jsTrim p.2.entity_name = k then some (p.2.entity_type, p.2.category)
          else none := by
      show ps.foldl _ (if jsTrim p.2.entity_name = k then _ else none) = _
      rw [lastDetail_foldl_acc]
    rw [hstep]
    constructor
    · intro h q hq
      rcases List.mem_cons.mp hq with h' | h'
      · subst h'
        intro hk
        rcases hcase : lastDetail ps k with _ | d
        · rw [hcase] at h; rw [if_pos hk] at h; cases h
        · rw [hcase] at h; cases h
      · intro hk
        rcases hcase : lastDetail ps k with _ | d
        · exact absurd hk (ih.mp hcase q h')
        · rw [hcase] at h; cases h
    · intro h
      have hps : lastDetail ps k = none :=
        ih.mpr (fun q hq => h q (List.mem_cons_of_mem p hq))
      rw [hps, if_neg (h p (List.mem_cons_self p ps))]

/-! ## Aggregator lemmas: duplicate-freeness invariants -/

theorem setAdd_nodup (s : List String) (t : String) (h : s.Nodup) :
    (setAdd s t).Nodup := by
  unfold setAdd
  by_cases ht : t ∈ s
  · simpa [ht] using h
  · simp [ht, List.nodup_append, h, List.disjoint_singleton]

theorem nodup_values_addTicker (m : List (String × List String)) (k t : String)
    (h : ∀ q ∈ m, q.2.Nodup) :
    ∀ q ∈ addTicker m k t, q.2.Nodup := by
  induction m with
  | nil =>
    intro q hq
    rcases List.mem_singleton.mp hq with rfl
    exact List.nodup_singleton t
  | cons p rest ih =>
    obtain ⟨k₀, s₀⟩ := p
    intro q hq
    by_cases h1 : k₀ = k
    · rw [show addTicker ((k₀, s₀) :: rest) k t = (k₀, setAdd s₀ t) :: rest by
            simp [addTicker, h1]] at hq
      rcases List.mem_cons.mp hq with rfl | hq'
      · exact setAdd_nodup s₀ t (h (k₀, s₀) (List.mem_cons_self _ _))
      · exact h q (List.mem_cons_of_mem _ hq')
    · rw [show addTicker ((k₀, s₀) :: rest) k t = (k₀, s₀) :: addTicker rest k t by
            simp [addTicker, h1]] at hq
      rcases List.mem_cons.mp hq with rfl | hq'
      · exact h (k₀, s₀) (List.mem_cons_self _ _)
      · exact ih (fun q hq => h q (List.mem_cons_of_mem _ hq)) q hq'

theorem nodup_values_foldl_stepEM (pairs : List (String × Relationship)) :
    ∀ em, (∀ q ∈ em, q.2.Nodup) → ∀ q ∈ pairs.foldl stepEM em, q.2.Nodup := by
  induction pairs with
  | nil => intro em h; exact h
  | cons p ps ih =>
    intro em h
    exact ih (stepEM em p) (nodup_values_addTicker em (jsTrim p.2.entity_name) p.1 h)

theorem mem_keys_addTicker (m : List (String × List String)) (k t x : String) :
    x ∈ (addTicker m k t).map Prod.fst ↔ x ∈ m.map Prod.fst ∨ x = k := by
  induction m with
  | nil => simp [addTicker]
  | cons p rest ih =>
    obtain ⟨k₀, s₀⟩ := p
    by_cases h1 : k₀ = k
    · subst h1
      rw [show addTicker ((k₀, s₀) :: rest) k₀ t = (k₀, setAdd s₀ t) :: rest by
            simp [addTicker]]
      constructor
      · intro h
        rcases List.mem_cons.mp h with rfl | h'
        · exact Or.inl (List.mem_cons_self _ _)
        · exact Or.inl (List.mem_cons_of_mem _ h')
      · intro h
        rcases h with h' | rfl
        · rcases List.mem_cons.mp h' with rfl | h''
          · exact List.mem_cons_self _ _
          · exact List.mem_cons_of_mem _ h''
        · exact List.mem_cons_self _ _
    · rw [show addTicker ((k₀, s₀) :: rest) k t = (k₀, s₀) :: addTicker rest k t by
            simp [addTicker, h1]]
      simp only [List.map_cons, List.mem_cons, ih]
      tauto

theorem nodup_keys_addTicker (m : List (String × List String)) (k t : String)
    (h : (m.map Prod.fst).Nodup) :
    ((addTicker m k t).map Prod.fst).Nodup := by
  induction m with
  | nil => simp [addTicker]
  | cons p rest ih =>
    obtain ⟨k₀, s₀⟩ := p
    rw [List.map_cons, List.nodup_cons] at h
    by_cases h1 : k₀ = k
    · rw [show addTicker ((k₀, s₀) :: rest) k t = (k₀, setAdd s₀ t) :: rest by
            simp [addTicker, h1]]
      rw [List.map_cons, List.nodup_cons]
      exact ⟨h.1, h.2⟩
    · rw [show addTicker ((k₀, s₀) :: rest) k t = (k₀, s₀) :: addTicker rest k t by
            simp [addTicker, h1]]
      rw [List.map_cons, List.nodup_cons]
      refine ⟨?_, ih h.2⟩
      intro hmem
      rcases (mem_keys_addTicker rest k t k₀).mp hmem with h' | h'
      · exact h.1 h'
      · exact h1 h'

theorem nodup_keys_foldl_stepEM (pairs : List (String × Relationship)) :
    ∀ em, ((em.map Prod.fst).Nodup) →
      (((pairs.foldl stepEM em).map Prod.fst)).Nodup := by
  induction pairs with
  | nil => intro em h; exact h
  | cons p ps ih =>
    intro em h
    exact ih (stepEM em p) (nodup_keys_addTicker em (jsTrim p.2.entity_name) p.1 h)

/-! ## Aggregator lemmas: membership and lookup -/

theorem lookup_eq_some_of_mem {α : Type} (m : List (String × α)) (k : String) (v : α)
    (hnd : (m.map Prod.fst).Nodup) (hmem : (k, v) ∈ m) :
    List.lookup k m = some v := by
  induction m with
  | nil => cases hmem
  | cons p rest ih =>
    obtain ⟨k₀, v₀⟩ := p
    rw [List.map_cons, List.nodup_cons] at hnd
    rcases List.mem_cons.mp hmem with heq | hmem'
    · cases heq
      exact lookup_cons_self k v rest
    · have hne : ¬ k = k₀ := by
        intro hh
        have hx : k ∈ List.map Prod.fst rest := by
          simpa using List.mem_map_of_mem Prod.fst hmem'
        rw [hh] at hx
        exact hnd.1 (by simpa using hx)
      rw [lookup_cons_ne k k₀ v₀ rest hne]
      exact ih hnd.2 hmem'

theorem mem_of_lookup_eq_some {α : Type} (m : List (String × α)) (k : String) (v : α)
    (h : List.lookup k m = some v) : (k, v) ∈ m := by
  induction m with
  | nil => cases h
  | cons p rest ih =>
    obtain ⟨k₀, v₀⟩ := p
    by_cases hk : k = k₀
    · subst hk
      rw [lookup_cons_self] at h
      exact List.mem_cons.mpr (Or.inl (by injection h with h'; rw [h']))
    · rw [lookup_cons_ne k k₀ v₀ rest hk] at h
      exact List.mem_cons_of_mem _ (ih h)

/-! ## Sort lemmas: membership, descending order, stability -/

theorem mem_insertDesc (x a : WhoCaresEntity) (l : List WhoCaresEntity) :
    a ∈ insertDesc x l ↔ a = x ∨ a ∈ l := by
  induction l with
  | nil => simp [insertDesc]
  | cons y ys ih =>
    by_cases h : x.exposure_count ≤ y.exposure_count
    · rw [show insertDesc x (y :: ys) = y :: insertDesc x ys by simp [insertDesc, h]]
      simp only [List.mem_cons, ih]
      tauto
    · rw [show insertDesc x (y :: ys) = x :: y :: ys by simp [insertDesc, h]]
      simp only [List.mem_cons]

theorem mem_foldl_insertDesc (l : List WhoCaresEntity) :
    ∀ (acc : List WhoCaresEntity) (a : WhoCaresEntity),
      a ∈ l.foldl (fun acc x => insertDesc x acc) acc ↔ a ∈ acc ∨ a ∈ l := by
  induction l with
  | nil => intro acc a; simp
  | cons x xs ih =>
    intro acc a
    rw [show List.foldl (fun acc x => insertDesc x acc) acc (x :: xs) =
          xs.foldl (fun acc x => insertDesc x acc) (insertDesc x acc) from rfl,
        ih, mem_insertDesc]
    simp only [List.mem_cons]
    tauto

theorem mem_sortByExposureDesc (l : List WhoCaresEntity) (a : WhoCaresEntity) :
    a ∈ sortByExposureDesc l ↔ a ∈ l := by
  rw [sortByExposureDesc, mem_foldl_insertDesc]
  simp

theorem pairwise_insertDesc (x : WhoCaresEntity) (l : List WhoCaresEntity)
    (h : List.Pairwise descCount l) :
    List.Pairwise descCount (insertDesc x l) := by
  induction l with
  | nil => simp [insertDesc, List.pairwise_singleton]
  | cons y ys ih =>
    rw [List.pairwise_cons] at h
    by_cases hxy : x.exposure_count ≤ y.exposure_count
    · rw [show insertDesc x (y :: ys) = y :: insertDesc x ys by simp [insertDesc, hxy]]
      rw [List.pairwise_cons]
      refine ⟨?_, ih h.2⟩
      intro a ha
      rcases (mem_insertDesc x a ys).mp ha with rfl | ha'
      · exact hxy
      · exact h.1 a ha'
    · rw [show insertDesc x (y :: ys) = x :: y :: ys by simp [insertDesc, hxy]]
      rw [List.pairwise_cons]
      refine ⟨?_, List.pairwise_cons.mpr h⟩
      intro a ha
      rcases List.mem_cons.mp ha with rfl | ha'
      · exact Nat.le_of_lt (Nat.lt_of_not_le hxy)
      · exact Nat.le_trans (h.1 a ha') (Nat.le_of_lt (Nat.lt_of_not_le hxy))

theorem pairwise_foldl_insertDesc (l : List WhoCaresEntity) :
    ∀ acc, List.Pairwise descCount acc →
      List.Pairwise descCount (l.foldl (fun acc x => insertDesc x acc) acc) := by
  induction l with
  | nil => intro acc h; exact h
  | cons x xs ih =>
    intro acc h
    exact ih (insertDesc x acc) (pairwise_insertDesc x acc h)

theorem pairwise_sortByExposureDesc (l : List WhoCaresEntity) :
    List.Pairwise descCount (sortByExposureDesc l) :=
  pairwise_foldl_insertDesc l [] List.Pairwise.nil

/-- Stability of one insertion, characterised through filtering on each
count value: inserting into a sorted accumulator appends the new element at
the end of its count class. -/
theorem filter_insertDesc (x : WhoCaresEntity) (k : Nat) (l : List WhoCaresEntity)
    (h : List.Pairwise descCount l) :
    (insertDesc x l).filter (fun e => e.exposure_count == k) =
      if x.exposure_count = k
      then l.filter (fun e => e.exposure_count == k) ++ [x]
      else l.filter (fun e => e.exposure_count == k) := by
  induction l with
  | nil =>
    by_cases hx : x.exposure_count = k
    · simp [insertDesc, List.filter, hx]
    · have hb : (x.exposure_count == k) = false := by simp [hx]
      simp [insertDesc, List.filter, hb, hx]
  | cons y ys ih =>
    rw [List.pairwise_cons] at h
    by_cases hxy : x.exposure_count ≤ y.exposure_count
    · rw [show insertDesc x (y :: ys) = y :: insertDesc x ys by simp [insertDesc, hxy]]
      by_cases hy : y.exposure_count = k
      · rw [List.filter_cons_of_pos (by simp [hy]),
            List.filter_cons_of_pos (by simp [hy]), ih h.2]
        by_cases hx : x.exposure_count = k <;> simp [hx]
      · rw [List.filter_cons_of_neg (by simp [hy]),
            List.filter_cons_of_neg (by simp [hy]), ih h.2]
    · rw [show insertDesc x (y :: ys) = x :: y :: ys by simp [insertDesc, hxy]]
      by_cases hx : x.exposure_count = k
      · rw [List.filter_cons_of_pos (by simp [hx]), if_pos hx]
        have hlt : y.exposure_count < x.exposure_count := Nat.lt_of_not_le hxy
        have hempty : (y :: ys).filter (fun e => e.exposure_count == k) = [] := by
          rw [List.filter_eq_nil_iff]
          intro a ha
          have hle : a.exposure_count ≤ y.exposure_count := by
            rcases List.mem_cons.mp ha with rfl | ha'
            · exact Nat.le_refl _
            · exact h.1 a ha'
          have hne : a.exposure_count ≠ k := by omega
          simpa using hne
        rw [hempty]
        rfl
      · rw [List.filter_cons_of_neg (by simp [hx]), if_neg hx]

theorem filter_foldl_insertDesc (k : Nat) (l : List WhoCaresEntity) :
    ∀ acc, List.Pairwise descCount acc →
      (l.foldl (fun acc x => insertDesc x acc) acc).filter
          (fun e => e.exposure_count == k) =
        acc.filter (fun e => e.exposure_count == k) ++
          l.filter (fun e => e.exposure_count == k) := by
  induction l with
  | nil => intro acc h; simp
  | cons x xs ih =>
    intro acc h
    rw [show List.foldl (fun acc x => insertDesc x acc) acc (x :: xs) =
          xs.foldl (fun acc x => insertDesc x acc) (insertDesc x acc) from rfl,
        ih (insertDesc x acc) (pairwise_insertDesc x acc h),
        filter_insertDesc x k acc h]
    by_cases hx : x.exposure_count = k
    · rw [if_pos hx, List.filter_cons_of_pos (by simp [hx]), List.append_assoc]
      rfl
    · rw [if_neg hx, List.filter_cons_of_neg (by simp [hx])]

/-- The sort is stable: it permutes nothing within a count class. -/
theorem filter_sortByExposureDesc (l : List WhoCaresEntity) (k : Nat) :
    (sortByExposureDesc l).filter (fun e => e.exposure_count == k) =
      l.filter (fun e => e.exposure_count == k) := by
  rw [sortByExposureDesc, filter_foldl_insertDesc k l [] List.Pairwise.nil]
  rfl

/-! ## Aggregator claim theorems (C1-C5) -/

theorem mem_whoCaresUnsorted (companies : List CompanyWithRels) (e : WhoCaresEntity) :
    e ∈ whoCaresUnsorted companies ↔
      ∃ p, p ∈ buildEntityMap (relPairs companies) ∧ 2 ≤ p.2.length ∧
        mkWhoCares (buildEntityDetails (relPairs companies)) p = e := by
  unfold whoCaresUnsorted
  simp only [List.mem_map, List.mem_filter, decide_eq_true_eq]
  constructor
  · rintro ⟨p, ⟨hp, hlen⟩, heq⟩
    exact ⟨p, hp, hlen, heq⟩
  · rintro ⟨p, hp, hlen, heq⟩
    exact ⟨p, ⟨hp, hlen⟩, heq⟩

theorem mem_calc_iff (companies : List CompanyWithRels) (e : WhoCaresEntity) :
    e ∈ calculateWhoCaresFromRelationships companies ↔
      ∃ p, p ∈ buildEntityMap (relPairs companies) ∧ 2 ≤ p.2.length ∧
        mkWhoCares (buildEntityDetails (relPairs companies)) p = e := by
  rw [calculateWhoCaresFromRelationships, mem_sortByExposureDesc,
    mem_whoCaresUnsorted]

/-- C1 (amended): the representative `{entityKind, category}` recorded for
each canonical entity — and emitted as the entity-level category — is the
one from the LAST relationship encountered for that entity in
company-then-relationship iteration order (`entityDetails.set` runs on
every relationship, so later encounters overwrite earlier ones); on the
shareholder/director/shareholder scenario the emitted category is still
"shareholder", since the last encounter agrees with the first. -/
theorem whoCares_primaryCategory_is_last (companies : List CompanyWithRels)
    (e : WhoCaresEntity) (he : e ∈ calculateWhoCaresFromRelationships companies) :
    lastDetail (relPairs companies) e.entity_name =
      some (e.entity_type, e.category) := by
  obtain ⟨p, hp, hlen, heq⟩ := (mem_calc_iff companies e).mp he
  have hnd : ((buildEntityMap (relPairs companies)).map Prod.fst).Nodup :=
    nodup_keys_foldl_stepEM _ [] (by simp)
  have hlk : List.lookup p.1 (buildEntityMap (relPairs companies)) = some p.2 :=
    lookup_eq_some_of_mem _ p.1 p.2 hnd hp
  have hmatch : ¬ ∀ q ∈ relPairs companies, jsTrim q.2.entity_name ≠ p.1 := by
    intro hall
    have hnone : List.lookup p.1 (buildEntityMap (relPairs companies)) = none :=
      (lookup_foldl_stepEM_eq_none_iff (relPairs companies) [] p.1).mpr ⟨rfl, hall⟩
    rw [hlk] at hnone
    cases hnone
  rcases hcase : lastDetail (relPairs companies) p.1 with _ | d
  · exact absurd ((lastDetail_eq_none_iff (relPairs companies) p.1).mp hcase) hmatch
  · have hed : List.lookup p.1 (buildEntityDetails (relPairs companies)) = some d := by
      have hb := lookup_foldl_stepED (relPairs companies) [] p.1
      rw [hcase] at hb
      exact hb
    rw [← heq]
    show lastDetail (relPairs companies) p.1 = _
    rw [hcase]
    simp [mkWhoCares, hed]

/-- Witness for C1's amended theorem: on the shareholder / director /
shareholder scenario, the emitted representative is the last-encountered
`("firm", "shareholder")`. -/
theorem whoCares_primaryCategory_is_last_witness :
    lastDetail (relPairs scenarioThree) "BDO" = some ("firm", "shareholder") := by
  have h := whoCares_primaryCategory_is_last scenarioThree scenarioThreeEntity
    (by decide)
  simpa [scenarioThreeEntity] using h

/-- C2 (amended): every element of `exposureDetails` carries the single
entity-level representative category (the last-encountered one); a company
whose own relationship category differs does NOT keep its own category in
its exposure detail. -/
theorem whoCares_exposureDetails_all_representative
    (companies : List CompanyWithRels) (e : WhoCaresEntity) (d : ExposureDetail)
    (he : e ∈ calculateWhoCaresFromRelationships companies)
    (hd : d ∈ e.exposure_details) :
    d.relationship_type = e.category := by
  obtain ⟨p, hp, hlen, heq⟩ := (mem_calc_iff companies e).mp he
  rw [← heq] at hd ⊢
  simp only [mkWhoCares, List.mem_map] at hd
  obtain ⟨t, ht, heq2⟩ := hd
  rw [← heq2]
  rfl

/-- Witness for C2's amended theorem at the middle company of the
shareholder/director/shareholder scenario, whose own category is
"director" yet whose detail carries the representative "shareholder". -/
theorem whoCares_exposureDetails_all_representative_witness :
    (⟨"BBB", "shareholder"⟩ : ExposureDetail).relationship_type =
      scenarioThreeEntity.category :=
  whoCares_exposureDetails_all_representative scenarioThree scenarioThreeEntity
    ⟨"BBB", "shareholder"⟩ (by decide) (by decide)

/-- C3: for every emitted entity, `exposure_count` equals the length of
`exposed_companies` and the length of `exposure_details`, and
`exposed_companies` has no duplicate ticker. -/
theorem whoCares_count_invariant (companies : List CompanyWithRels)
    (e : WhoCaresEntity) (he : e ∈ calculateWhoCaresFromRelationships companies) :
    e.exposure_count = e.exposed_companies.length ∧
    e.exposure_count = e.exposure_details.length ∧
    e.exposed_companies.Nodup := by
  obtain ⟨p, hp, hlen, heq⟩ := (mem_calc_iff companies e).mp he
  have hnodup : p.2.Nodup :=
    nodup_values_foldl_stepEM (relPairs companies) [] (by simp) p hp
  rw [← heq]
  refine ⟨rfl, ?_, hnodup⟩
  simp [mkWhoCares]

/-- Witness for C3 at the three-company scenario's emitted entity. -/
theorem whoCares_count_invariant_witness :
    scenarioThreeEntity.exposure_count =
        scenarioThreeEntity.exposed_companies.length ∧
    scenarioThreeEntity.exposure_count =
        scenarioThreeEntity.exposure_details.length ∧
    scenarioThreeEntity.exposed_companies.Nodup :=
  whoCares_count_invariant scenarioThree scenarioThreeEntity (by decide)

/-- C4: an entity name appears in the aggregator's output exactly when the
set of distinct tickers of companies mentioning it (after the trim the
aggregator applies) has at least two elements. -/
theorem whoCares_presence_iff_two_tickers (companies : List CompanyWithRels)
    (name : String) :
    (∃ e ∈ calculateWhoCaresFromRelationships companies, e.entity_name = name) ↔
      2 ≤ (mentionTickers companies name).length := by
  constructor
  · rintro ⟨e, he, hname⟩
    obtain ⟨p, hp, hlen, heq⟩ := (mem_calc_iff companies e).mp he
    have hname' : p.1 = name := by
      rw [← heq] at hname
      exact hname
    have hnd : ((buildEntityMap (relPairs companies)).map Prod.fst).Nodup :=
      nodup_keys_foldl_stepEM _ [] (by simp)
    have hlk : List.lookup p.1 (buildEntityMap (relPairs companies)) = some p.2 :=
      lookup_eq_some_of_mem _ p.1 p.2 hnd hp
    have hgd := getD_foldl_stepEM (relPairs companies) [] p.1
    rw [show buildEntityMap (relPairs companies) =
          (relPairs companies).foldl stepEM [] from rfl] at hlk
    rw [hlk] at hgd
    have hmt : p.2 = mentionTickers companies p.1 := hgd
    rw [hname'] at hmt
    rw [← hmt]
    exact hlen
  · intro h2
    have hgd := getD_foldl_stepEM (relPairs companies) [] name
    rcases hcase : List.lookup name (buildEntityMap (relPairs companies))
      with _ | s
    · exfalso
      rw [show buildEntityMap (relPairs companies) =
            (relPairs companies).foldl stepEM [] from rfl] at hcase
      rw [hcase] at hgd
      have : ([] : List String) = mentionTickers companies name := hgd
      rw [← this] at h2
      simp at h2
    · have hs : s = mentionTickers companies name := by
        rw [show buildEntityMap (relPairs companies) =
              (relPairs companies).foldl stepEM [] from rfl] at hcase
        rw [hcase] at hgd
        exact hgd
      have hmem : (name, s) ∈ buildEntityMap (relPairs companies) :=
        mem_of_lookup_eq_some _ name s hcase
      refine ⟨mkWhoCares (buildEntityDetails (relPairs companies)) (name, s),
        ?_, rfl⟩
      exact (mem_calc_iff companies _).mpr
        ⟨(name, s), hmem, by rw [hs]; exact h2, rfl⟩

/-- Witness for C4 at the three-company scenario. -/
theorem whoCares_presence_iff_two_tickers_witness :
    ∃ e ∈ calculateWhoCaresFromRelationships scenarioThree,
      e.entity_name = "BDO" :=
  (whoCares_presence_iff_two_tickers scenarioThree "BDO").mpr (by decide)

/-- C5: the aggregator's output is sorted in descending order of
`exposure_count`; the sort is stable (filtering the output on any fixed
count value gives exactly the corresponding filtering of the pre-sort list,
whose order is the map-insertion order of first encounter); and equal
inputs give equal outputs. -/
theorem whoCares_sorted_stable_deterministic (companies : List CompanyWithRels) :
    List.Pairwise descCount (calculateWhoCaresFromRelationships companies) ∧
    (∀ k, (calculateWhoCaresFromRelationships companies).filter
        (fun e => e.exposure_count == k) =
      (whoCaresUnsorted companies).filter (fun e => e.exposure_count == k)) ∧
    (∀ companies₂, companies = companies₂ →
      calculateWhoCaresFromRelationships companies =
        calculateWhoCaresFromRelationships companies₂) := by
  refine ⟨pairwise_sortByExposureDesc _,
    fun k => filter_sortByExposureDesc _ k, ?_⟩
  intro companies₂ h
  rw [h]

/-- Witness for C5: the determinism conjunct applied at the three-company
scenario. -/
theorem whoCares_sorted_stable_deterministic_witness :
    calculateWhoCaresFromRelationships scenarioThree =
      calculateWhoCaresFromRelationships scenarioThree :=
  (whoCares_sorted_stable_deterministic scenarioThree).2.2 scenarioThree rfl

end NeuralGraph
